import Mathlib

/-!
Shallow embedding of `src/main.py` (an asyncio monome-grid wave animation) and
verification of its specification claims.

Floating-point scalars of the source are modelled as exact real numbers
(`ℝ`) where transcendental functions are involved, and as exact rationals
(`ℚ`) where the computation is rational, with the numpy/Python rounding
primitives (`np.round`, `np.interp`, `int()`) modelled exactly.
-/

open Real

namespace SinusMonome

/-! ### Module-level configuration constants (src/main.py lines 7-16) -/

/-- `frequency = 440` — base frequency in Hz. -/
def frequency : ℚ := 440

/-- `sample_rate = 44100` — sampling rate in Hz. -/
def sample_rate : ℕ := 44100

/-- `bitmap_size = 8` — monome grid size. -/
def bitmap_size : ℕ := 8

/-- `internal_resolution = 32` — internal sampling resolution. -/
def internal_resolution : ℕ := 32

/-- `amplitude = 1` — amplitude of the wave. -/
def amplitude : ℝ := 1

/-- `phase_increment = 0.1` — base speed of phase change. -/
noncomputable def phase_increment : ℝ := 1 / 10

/-- `brightness_factor = 15` — brightness scale max. -/
def brightness_factor : ℕ := 15

/-- `sound_duration = 0.1` — duration of each tone in seconds. -/
def sound_duration : ℚ := 1 / 10

/-- `pitch_variation_factor = 0.02`. -/
def pitch_variation_factor : ℚ := 1 / 50

/-! ### Python / numpy scalar primitives -/

/-- Python `int()` applied to a real scalar: truncation toward zero. -/
noncomputable def pyInt (x : ℝ) : ℤ := if 0 ≤ x then ⌊x⌋ else ⌈x⌉

/-- Python `int()` applied to an exact rational scalar. -/
def pyIntQ (q : ℚ) : ℤ := if 0 ≤ q then ⌊q⌋ else ⌈q⌉

/-- `np.round` on a scalar: round half to even (IEEE "banker's rounding");
away from exact halves it agrees with rounding to the nearest integer. -/
noncomputable def npRound (x : ℝ) : ℤ :=
  if Int.fract x = 1 / 2 then (if 2 ∣ ⌊x⌋ then ⌊x⌋ else ⌊x⌋ + 1) else round x

/-- `np.interp x (x0, x1) (y0, y1)` — piecewise-linear interpolation through the
two-point table, clipping to `y0` below `x0` and to `y1` above `x1`,
as used at src/main.py lines 31-32. -/
noncomputable def npInterp (x x0 x1 y0 y1 : ℝ) : ℝ :=
  if x ≤ x0 then y0
  else if x1 ≤ x then y1
  else y0 + (x - x0) * (y1 - y0) / (x1 - x0)

/-! ### generate_bitmap (src/main.py lines 26-41) -/

/-- `x = np.linspace(0, bitmap_size, internal_resolution, endpoint=False)`:
the `i`-th sample position is `i * bitmap_size / internal_resolution`. -/
noncomputable def sampleX (i : ℕ) : ℝ := i * (bitmap_size : ℝ) / (internal_resolution : ℝ)

/-- `wave = amplitude * wave_func(2 * np.pi * (x / bitmap_size) + phase)` at sample `i`. -/
noncomputable def waveAt (f : ℝ → ℝ) (phase : ℝ) (i : ℕ) : ℝ :=
  amplitude * f (2 * π * (sampleX i / (bitmap_size : ℝ)) + phase)

/-- `wave_scaled = np.interp(wave, (-1, 1), (0, bitmap_size - 1))` at sample `i`. -/
noncomputable def wave_scaled (f : ℝ → ℝ) (phase : ℝ) (i : ℕ) : ℝ :=
  npInterp (waveAt f phase i) (-1) 1 0 ((bitmap_size : ℝ) - 1)

/-- `brightness = np.interp(np.abs(wave), (0, 1), (1, brightness_factor))` at sample `i`. -/
noncomputable def brightness (f : ℝ → ℝ) (phase : ℝ) (i : ℕ) : ℝ :=
  npInterp |waveAt f phase i| 0 1 1 (brightness_factor : ℝ)

/-- `col_x = np.interp(col, np.arange(bitmap_size), np.linspace(0, internal_resolution - 1,
bitmap_size))`: `col` is the exact knot `col` of `np.arange(bitmap_size)`, so the
interpolation returns the table value `col * (internal_resolution - 1) / (bitmap_size - 1)`. -/
def colX (col : ℕ) : ℚ := col * (internal_resolution - 1 : ℚ) / (bitmap_size - 1 : ℚ)

/-- `int(col_x)` — the internal-resolution sample index used for display column `col`. -/
def colIdx (col : ℕ) : ℕ := (pyIntQ (colX col)).toNat

/-- The bitmap row written for column `c`:
`row = int(np.round(wave_scaled[int(col_x)]))`. -/
noncomputable def rowOf (f : ℝ → ℝ) (phase : ℝ) (c : ℕ) : ℤ :=
  npRound (wave_scaled f phase (colIdx c))

/-- The brightness value written for column `c`: `int(brightness[int(col_x)])`. -/
noncomputable def valOf (f : ℝ → ℝ) (phase : ℝ) (c : ℕ) : ℤ :=
  pyInt (brightness f phase (colIdx c))

/-- `generate_bitmap(phase)`: start from `np.zeros((8, 8))` and, looping over the
8 display columns, write `bitmap[row, col] = int(brightness[int(col_x)])` where
`row = int(np.round(wave_scaled[int(col_x)]))`.  The result is the 8×8 integer
matrix as a function of (row, column).  (The row index provably stays inside
`[0, 7]` — see `rowOf_mem` below — so modelling the write by a guarded update is
exact.) -/
noncomputable def generate_bitmap (f : ℝ → ℝ) (phase : ℝ) : Fin 8 → Fin 8 → ℤ :=
  (List.range bitmap_size).foldl
    (fun bm col =>
      fun r c =>
        if (r : ℤ) = rowOf f phase col ∧ (c : ℕ) = col then valOf f phase col else bm r c)
    (fun _ _ => 0)

theorem generate_bitmap_apply (f : ℝ → ℝ) (phase : ℝ) (r c : Fin 8) :
    generate_bitmap f phase r c =
      if (r : ℤ) = rowOf f phase (c : ℕ) then valOf f phase (c : ℕ) else 0 := by
  have hfin : List.range bitmap_size = [0, 1, 2, 3, 4, 5, 6, 7] := by decide
  fin_cases c <;>
    simp only [generate_bitmap, hfin, List.foldl_cons, List.foldl_nil] <;>
    norm_num

/-! ### Range facts about the scalar primitives -/

theorem npInterp_mem {x x0 x1 y0 y1 : ℝ} (_hx : x0 < x1) (hy : y0 ≤ y1) :
    y0 ≤ npInterp x x0 x1 y0 y1 ∧ npInterp x x0 x1 y0 y1 ≤ y1 := by
  unfold npInterp
  split
  · exact ⟨le_rfl, hy⟩
  next h1 =>
    split
    next h2 => exact ⟨hy, le_rfl⟩
    next h2 =>
      push_neg at h1 h2
      have hd : 0 < x1 - x0 := by linarith
      constructor
      · have hnn : 0 ≤ (x - x0) * (y1 - y0) / (x1 - x0) :=
          div_nonneg (mul_nonneg (by linarith) (by linarith)) hd.le
        linarith
      · rw [← sub_nonneg]
        have hle : (x - x0) * (y1 - y0) / (x1 - x0) ≤ y1 - y0 := by
          rw [div_le_iff₀ hd]
          nlinarith
        linarith

theorem npRound_mem {x : ℝ} {a b : ℤ} (ha : (a : ℝ) ≤ x) (hb : x ≤ (b : ℝ)) :
    a ≤ npRound x ∧ npRound x ≤ b := by
  unfold npRound
  split
  next hf =>
    have hx : x = (⌊x⌋ : ℝ) + 1 / 2 := by
      have := Int.fract_add_floor x
      rw [hf] at this
      linarith
    have hal : a ≤ ⌊x⌋ := Int.le_floor.2 ha
    have hbu : ⌊x⌋ + 1 ≤ b := by
      by_contra hcon
      push_neg at hcon
      have : b ≤ ⌊x⌋ := by omega
      have : (b : ℝ) ≤ (⌊x⌋ : ℝ) := by exact_mod_cast this
      linarith
    split
    · exact ⟨hal, by omega⟩
    · exact ⟨by omega, hbu⟩
  next hf =>
    rw [round_eq]
    constructor
    · exact Int.le_floor.2 (by linarith)
    · have : ⌊x + 1 / 2⌋ < b + 1 := Int.floor_lt.2 (by push_cast; linarith)
      omega

theorem pyInt_mem {x : ℝ} {a b : ℤ} (h0 : 0 ≤ a) (ha : (a : ℝ) ≤ x) (hb : x ≤ (b : ℝ)) :
    a ≤ pyInt x ∧ pyInt x ≤ b := by
  have hx0 : 0 ≤ x := le_trans (by exact_mod_cast h0) ha
  unfold pyInt
  rw [if_pos hx0]
  refine ⟨Int.le_floor.2 ha, ?_⟩
  have : ⌊x⌋ < b + 1 := Int.floor_lt.2 (by push_cast; linarith)
  omega

theorem wave_scaled_mem (f : ℝ → ℝ) (phase : ℝ) (i : ℕ) :
    0 ≤ wave_scaled f phase i ∧ wave_scaled f phase i ≤ 7 := by
  have h := @npInterp_mem (waveAt f phase i) (-1) 1 0 ((bitmap_size : ℝ) - 1)
    (by norm_num [bitmap_size]) (by norm_num [bitmap_size])
  have h7 : ((8 : ℝ) - 1) = 7 := by norm_num
  simpa [wave_scaled, bitmap_size, h7] using h

theorem brightness_mem (f : ℝ → ℝ) (phase : ℝ) (i : ℕ) :
    1 ≤ brightness f phase i ∧ brightness f phase i ≤ 15 := by
  have h := @npInterp_mem |waveAt f phase i| 0 1 1 ((brightness_factor : ℝ))
    (by norm_num) (by norm_num [brightness_factor])
  simpa [brightness, brightness_factor] using h

/-- The row index written by `generate_bitmap` always lies in `[0, 7]`
(`np.interp` clips `wave_scaled` into `[0, bitmap_size - 1]`). -/
theorem rowOf_mem (f : ℝ → ℝ) (phase : ℝ) (c : ℕ) :
    0 ≤ rowOf f phase c ∧ rowOf f phase c ≤ 7 := by
  have h := wave_scaled_mem f phase (colIdx c)
  exact npRound_mem (by exact_mod_cast h.1) (by exact_mod_cast h.2)

/-- The brightness value written by `generate_bitmap` always lies in `[1, 15]`. -/
theorem valOf_mem (f : ℝ → ℝ) (phase : ℝ) (c : ℕ) :
    1 ≤ valOf f phase c ∧ valOf f phase c ≤ 15 := by
  have h := brightness_mem f phase (colIdx c)
  exact pyInt_mem (by norm_num) (by exact_mod_cast h.1) (by exact_mod_cast h.2)

/-! ### play_sound (src/main.py lines 43-65) -/

/-- `np.linspace a b n` with `endpoint=True`: `n` samples `a + i * (b - a) / (n - 1)`.
(For `n = 1` numpy returns `[a]`; rational division by zero is `0`, so the
formula agrees.) -/
def npLinspace (a b : ℚ) (n : ℕ) : List ℚ :=
  (List.range n).map (fun i : ℕ => a + (i : ℚ) * (b - a) / ((n : ℚ) - 1))

/-- `pitch = frequency + brightness * pitch_variation_factor` (line 46). -/
def pitch (b : ℚ) : ℚ := frequency + b * pitch_variation_factor

/-- Number of carrier samples: `int(sample_rate * sound_duration)` (line 47). -/
def num_samples : ℕ := (pyIntQ ((sample_rate : ℚ) * sound_duration)).toNat

/-- `t = np.linspace(0, sound_duration, num_samples, endpoint=False)` (line 47). -/
def tSamples : List ℚ :=
  (List.range num_samples).map (fun i : ℕ => (i : ℚ) * sound_duration / (num_samples : ℚ))

/-- `sound_wave = 0.5 * np.sin(2 * np.pi * pitch * t)` (line 50). -/
noncomputable def sound_wave (b : ℚ) : List ℝ :=
  tSamples.map (fun x : ℚ => 0.5 * Real.sin (2 * π * (pitch b : ℝ) * (x : ℝ)))

/-- The ADSR envelope of `play_sound` (lines 53-58):
`np.concatenate([np.linspace(0, 1, int(sample_rate * 0.02)),
np.linspace(1, 0.8, int(sample_rate * 0.05)),
np.ones(int(sample_rate * (sound_duration - 0.07))),
np.linspace(0.8, 0, int(sample_rate * 0.02))])`.
Note the third segment is `np.ones(...)`, i.e. it is flat at `1`, not at `0.8`. -/
def envelope : List ℚ :=
  npLinspace 0 1 ((pyIntQ ((sample_rate : ℚ) * (2 / 100))).toNat) ++
    npLinspace 1 (8 / 10) ((pyIntQ ((sample_rate : ℚ) * (5 / 100))).toNat) ++
      List.replicate ((pyIntQ ((sample_rate : ℚ) * (sound_duration - 7 / 100))).toNat) 1 ++
        npLinspace (8 / 10) 0 ((pyIntQ ((sample_rate : ℚ) * (2 / 100))).toNat)

/-- `envelope[:len(sound_wave)]` — the envelope samples the multiplication uses
(line 61). -/
def envelope_used : List ℚ := envelope.take num_samples

/-! ### The application state machine (src/main.py lines 18-99) -/

/-- The mutable attributes of `AliveWaveGridApp` (lines 19-24). -/
structure AppState where
  wave_func : ℝ → ℝ
  phase : ℝ
  connected : Bool
  prev_brightness : ℤ

/-- `__init__` with the default `wave_func=np.sin` (lines 19-24). -/
noncomputable def initApp : AppState :=
  { wave_func := Real.sin, phase := 0, connected := false, prev_brightness := 0 }

/-- `generate_bitmap` as the instance method: it reads `self.wave_func` and its
`phase` argument and nothing else, and writes no attribute. -/
noncomputable def app_generate_bitmap (s : AppState) (phase : ℝ) : Fin 8 → Fin 8 → ℤ :=
  generate_bitmap s.wave_func phase

/-- `middle_row_brightness = bitmap[bitmap_size // 2].max()` (line 86):
the numpy maximum over row `bitmap_size // 2 = 4` of the bitmap. -/
def middle_row_max (bm : Fin 8 → Fin 8 → ℤ) : ℤ :=
  ((List.finRange 8).map (fun c => bm 4 c)).foldl max (bm 4 0)

/-- The externally observable effects of one animation-loop iteration. -/
structure IterEffects where
  displayed : List (Fin 8 → Fin 8 → ℤ)
  soundPlayed : Bool

/-- One iteration of the `while self.connected` body of `start_animation`
(lines 78-95): generate the bitmap from the current phase, dispatch it via
`display_bitmap`, read the middle-row maximum, update `prev_brightness` when
the absolute difference exceeds `0.1` (the `play_sound` call on line 90 is
commented out in the source, so no iteration ever plays a sound), then advance
the phase by `phase_increment + 0.05 * np.sin(self.phase)`. -/
noncomputable def loopIter (s : AppState) : AppState × IterEffects :=
  let bitmap := generate_bitmap s.wave_func s.phase
  let mid := middle_row_max bitmap
  let s1 :=
    if |(s.prev_brightness : ℝ) - (mid : ℝ)| > 1 / 10 then
      { s with prev_brightness := mid }
    else s
  let s2 := { s1 with phase := s1.phase + phase_increment + 0.05 * Real.sin s1.phase }
  (s2, { displayed := [bitmap], soundPlayed := false })

/-- `stop_animation` (lines 97-99): clears the `connected` flag and nothing else. -/
def stop_animation (s : AppState) : AppState := { s with connected := false }

/-- The state after `n` completed loop iterations of `start_animation`
(which first sets `self.connected = True`, line 77), with no `stop_animation`
call interleaved. -/
noncomputable def animState : ℕ → AppState
  | 0 => { initApp with connected := true }
  | n + 1 => (loopIter (animState n)).1

/-- The effect trace of `start_animation` run for at most `n` iterations, where
`stop_animation` is invoked during iteration number `stopAt` (0-indexed) — e.g.
from another task while that iteration suspends in `asyncio.sleep`.  The
`while self.connected` condition reads the flag only at the top of each
iteration, so iteration `stopAt` itself still runs to completion. -/
noncomputable def runWithStop : ℕ → ℕ → AppState → List IterEffects
  | _, 0, _ => []
  | stopAt, n + 1, s =>
    if s.connected then
      let step := loopIter s
      let s2 := if stopAt = 0 then stop_animation step.1 else step.1
      step.2 :: runWithStop (stopAt - 1) n s2
    else []

/-- The state in which the animation loop starts: `start_animation` sets
`self.connected = True` before entering the loop. -/
noncomputable def startedApp : AppState := { initApp with connected := true }

theorem loopIter_connected (s : AppState) : (loopIter s).1.connected = s.connected := by
  unfold loopIter
  dsimp only
  split <;> rfl

theorem loopIter_phase (s : AppState) :
    (loopIter s).1.phase = s.phase + phase_increment + 0.05 * Real.sin s.phase := by
  unfold loopIter
  dsimp only
  split <;> rfl

theorem loopIter_soundPlayed (s : AppState) : (loopIter s).2.soundPlayed = false := rfl

theorem runWithStop_of_not_connected (stopAt n : ℕ) (s : AppState)
    (hs : s.connected = false) : runWithStop stopAt n s = [] := by
  cases n with
  | zero => rfl
  | succ n => unfold runWithStop; rw [hs]; simp

theorem runWithStop_length (stopAt n : ℕ) (s : AppState) (hs : s.connected = true) :
    (runWithStop stopAt n s).length = min n (stopAt + 1) := by
  induction n generalizing stopAt s with
  | zero => simp [runWithStop]
  | succ n ih =>
    unfold runWithStop
    rw [hs]
    simp only [if_true]
    rcases Nat.eq_zero_or_pos stopAt with h0 | hpos
    · subst h0
      rw [if_pos rfl]
      have hstop : (stop_animation (loopIter s).1).connected = false := rfl
      rw [List.length_cons, runWithStop_of_not_connected _ _ _ hstop]
      simp
    · rw [if_neg (by omega)]
      have hc : ((loopIter s).1).connected = true := by
        rw [loopIter_connected]; exact hs
      rw [List.length_cons, ih (stopAt - 1) _ hc]
      omega

/-! ### Evaluation of the segment sample counts -/

theorem attack_count : (pyIntQ ((sample_rate : ℚ) * (2 / 100))).toNat = 882 := by
  have h : pyIntQ ((sample_rate : ℚ) * (2 / 100)) = 882 := by
    norm_num [pyIntQ, sample_rate]
  rw [h]; rfl

theorem decay_count : (pyIntQ ((sample_rate : ℚ) * (5 / 100))).toNat = 2205 := by
  have h : pyIntQ ((sample_rate : ℚ) * (5 / 100)) = 2205 := by
    norm_num [pyIntQ, sample_rate]
  rw [h]; rfl

theorem sustain_count : (pyIntQ ((sample_rate : ℚ) * (sound_duration - 7 / 100))).toNat = 1323 := by
  have h : pyIntQ ((sample_rate : ℚ) * (sound_duration - 7 / 100)) = 1323 := by
    norm_num [pyIntQ, sample_rate, sound_duration]
  rw [h]; rfl

theorem num_samples_eval : num_samples = 4410 := by
  have h : pyIntQ ((sample_rate : ℚ) * sound_duration) = 4410 := by
    norm_num [pyIntQ, sample_rate, sound_duration]
  rw [num_samples, h]; rfl

theorem npLinspace_length (a b : ℚ) (n : ℕ) : (npLinspace a b n).length = n := by
  rw [npLinspace, List.length_map, List.length_range]

theorem envelope_length : envelope.length = 5292 := by
  rw [envelope]
  simp only [List.length_append, npLinspace_length, List.length_replicate,
    attack_count, decay_count, sustain_count]

theorem npLinspace_mem {a b v : ℚ} {n : ℕ} (hv : v ∈ npLinspace a b n) :
    min a b ≤ v ∧ v ≤ max a b := by
  simp only [npLinspace, List.mem_map, List.mem_range] at hv
  obtain ⟨i, hi, rfl⟩ := hv
  rcases Nat.lt_or_ge n 2 with hn | hn
  · have hi0 : i = 0 := by omega
    subst hi0
    simp only [Nat.cast_zero, zero_mul, zero_div, add_zero]
    exact ⟨min_le_left a b, le_max_left a b⟩
  · have hd : (0 : ℚ) < (n : ℚ) - 1 := by
      have : (2 : ℚ) ≤ (n : ℚ) := by exact_mod_cast hn
      linarith
    have hiu : (i : ℚ) ≤ (n : ℚ) - 1 := by
      have : (i : ℚ) + 1 ≤ (n : ℚ) := by exact_mod_cast hi
      linarith
    have hi0 : (0 : ℚ) ≤ (i : ℚ) := by positivity
    rcases le_total a b with hab | hab
    · rw [min_eq_left hab, max_eq_right hab]
      constructor
      · have : 0 ≤ (i : ℚ) * (b - a) / ((n : ℚ) - 1) :=
          div_nonneg (mul_nonneg hi0 (by linarith)) hd.le
        linarith
      · have : (i : ℚ) * (b - a) / ((n : ℚ) - 1) ≤ b - a := by
          rw [div_le_iff₀ hd]
          nlinarith
        linarith
    · rw [min_eq_right hab, max_eq_left hab]
      constructor
      · have : (b - a) ≤ (i : ℚ) * (b - a) / ((n : ℚ) - 1) := by
          rw [le_div_iff₀ hd]
          nlinarith
        linarith
      · have : (i : ℚ) * (b - a) / ((n : ℚ) - 1) ≤ 0 :=
          div_nonpos_of_nonpos_of_nonneg (mul_nonpos_of_nonneg_of_nonpos hi0 (by linarith)) hd.le
        linarith

theorem envelope_mem {v : ℚ} (hv : v ∈ envelope) : 0 ≤ v ∧ v ≤ 1 := by
  rw [envelope] at hv
  simp only [List.mem_append] at hv
  rcases hv with ((h | h) | h) | h
  · have := npLinspace_mem h
    have h1 : min (0 : ℚ) 1 = 0 := by norm_num
    have h2 : max (0 : ℚ) 1 = 1 := by norm_num
    rw [h1] at this
    rw [h2] at this
    exact this
  · have := npLinspace_mem h
    have h1 : min (1 : ℚ) (8 / 10) = 8 / 10 := by norm_num
    have h2 : max (1 : ℚ) (8 / 10) = 1 := by norm_num
    rw [h1] at this
    rw [h2] at this
    constructor <;> linarith [this.1, this.2]
  · have := List.eq_of_mem_replicate h
    subst this
    norm_num
  · have := npLinspace_mem h
    have h1 : min (8 / 10 : ℚ) 0 = 0 := by norm_num
    have h2 : max (8 / 10 : ℚ) 0 = 8 / 10 := by norm_num
    rw [h1] at this
    rw [h2] at this
    constructor <;> linarith [this.1, this.2]

/-! ### Claim C2 -/

/-- Claim C2 (code evaluation at the failing input): the envelope's decay
segment ends at `0.8` (sample index 3086) but the very next sample — the first
sample of the third, "sustain" segment — is `1`, not `0.8`: the source builds
the sustain segment as `np.ones(...)` without the `0.8` factor, contradicting
the adjacent decay/release endpoints of its own ADSR envelope. -/
theorem claim_C2_sustain_flat_at_one :
    envelope[3086]? = some (8 / 10) ∧ envelope[3087]? = some 1 ∧ (1 : ℚ) ≠ 8 / 10 := by
  rw [envelope]
  rw [show ((pyIntQ ((sample_rate : ℚ) * (2 / 100))).toNat) = 882 from attack_count]
  rw [show ((pyIntQ ((sample_rate : ℚ) * (5 / 100))).toNat) = 2205 from decay_count]
  rw [show ((pyIntQ ((sample_rate : ℚ) * (sound_duration - 7 / 100))).toNat) = 1323
    from sustain_count]
  have hA : (npLinspace 0 1 882).length = 882 := npLinspace_length _ _ _
  have hD : (npLinspace 1 (8 / 10) 2205).length = 2205 := npLinspace_length _ _ _
  have hS : (List.replicate 1323 (1 : ℚ)).length = 1323 := List.length_replicate _ _
  have hADS : (npLinspace 0 1 882 ++ npLinspace 1 (8 / 10) 2205 ++
      List.replicate 1323 (1 : ℚ)).length = 4410 := by
    simp only [List.length_append, hA, hD, hS]
  have hAD : (npLinspace 0 1 882 ++ npLinspace 1 (8 / 10) 2205).length = 3087 := by
    simp only [List.length_append, hA, hD]
  refine ⟨?_, ?_, by norm_num⟩
  · rw [List.getElem?_append, if_pos (by rw [hADS]; omega)]
    rw [List.getElem?_append, if_pos (by rw [hAD]; omega)]
    rw [List.getElem?_append, if_neg (by rw [hA]; omega), hA,
      show 3086 - 882 = 2204 from rfl]
    rw [npLinspace, List.getElem?_map, List.getElem?_range]
    · norm_num
    · norm_num
  · rw [List.getElem?_append, if_pos (by rw [hADS]; omega)]
    rw [List.getElem?_append, if_neg (by rw [hAD]; omega), hAD,
      show 3087 - 3087 = 0 from rfl]
    rw [List.getElem?_replicate]
    norm_num

/-! ### Claim C6 -/

theorem tSamples_length : tSamples.length = num_samples := by
  rw [tSamples, List.length_map, List.length_range]

theorem sound_wave_length (b : ℚ) : (sound_wave b).length = num_samples := by
  rw [sound_wave, List.length_map, tSamples_length]

/-- Claim C6: after truncation (`envelope[:len(sound_wave)]`) the envelope's
sample count equals the carrier's sample count; every envelope value actually
used lies in `[0, 1]`; and for `sound_duration = 0.1` at `sample_rate = 44100`
the carrier has `int(44100 * 0.1) = 4410` samples, for every brightness. -/
theorem claim_C6_envelope_matches_carrier (b : ℚ) :
    (sound_wave b).length = 4410 ∧ num_samples = 4410 ∧
      envelope_used.length = (sound_wave b).length ∧
        ∀ v ∈ envelope_used, 0 ≤ v ∧ v ≤ 1 := by
  have hsw : (sound_wave b).length = 4410 := by rw [sound_wave_length, num_samples_eval]
  refine ⟨hsw, num_samples_eval, ?_, ?_⟩
  · rw [envelope_used, List.length_take, envelope_length, num_samples_eval, hsw]
    norm_num
  · intro v hv
    exact envelope_mem (List.mem_of_mem_take hv)

/-- Witness for claim C6 at brightness `1`, checking the very first envelope
sample (which is the attack's start, `0`). -/
theorem claim_C6_witness : (sound_wave 1).length = 4410 ∧ (0 : ℚ) ≤ 0 ∧ (0 : ℚ) ≤ 1 := by
  have h0 : envelope_used[0]? = some 0 := by
    rw [envelope_used, List.getElem?_take_of_lt (by rw [num_samples_eval]; omega)]
    rw [envelope]
    rw [show ((pyIntQ ((sample_rate : ℚ) * (2 / 100))).toNat) = 882 from attack_count]
    rw [List.getElem?_append, if_pos (by
      simp only [List.length_append, npLinspace_length, List.length_replicate]; omega)]
    rw [List.getElem?_append, if_pos (by
      simp only [List.length_append, npLinspace_length]; omega)]
    rw [List.getElem?_append, if_pos (by rw [npLinspace_length]; omega)]
    rw [npLinspace, List.getElem?_map, List.getElem?_range]
    · norm_num
    · norm_num
  have hmem : (0 : ℚ) ∈ envelope_used := by
    have hlen : 0 < envelope_used.length := by
      rw [envelope_used, List.length_take, envelope_length, num_samples_eval]
      norm_num
    rw [List.getElem?_eq_getElem hlen] at h0
    have h0' : envelope_used[0] = 0 := Option.some.inj h0
    rw [← h0']
    exact List.getElem_mem hlen
  exact ⟨(claim_C6_envelope_matches_carrier 1).1,
    (claim_C6_envelope_matches_carrier 1).2.2.2 0 hmem⟩

/-! ### Claim C7 -/

/-- Claim C7: if `stop_animation` is called during iteration `stopAt` of the
animation loop, the total number of bitmap dispatches over a run of up to `n`
iterations is `min n (stopAt + 1)`: the in-flight iteration still dispatches its
bitmap (the flag is read only at the top of the loop), and no dispatch happens
in any later iteration. -/
theorem claim_C7_stop_halts_dispatch (stopAt n : ℕ) :
    ((runWithStop stopAt n startedApp).map (fun e => e.displayed.length)).sum =
      min n (stopAt + 1) := by
  have hconn : startedApp.connected = true := rfl
  have hgen : ∀ (a m : ℕ) (s : AppState), s.connected = true →
      ((runWithStop a m s).map (fun e => e.displayed.length)).sum = min m (a + 1) := by
    intro a m
    induction m generalizing a with
    | zero => intro s _; simp [runWithStop]
    | succ m ih =>
      intro s hs
      unfold runWithStop
      rw [hs]
      simp only [if_true]
      rcases Nat.eq_zero_or_pos a with h0 | hpos
      · subst h0
        rw [if_pos rfl]
        have hstop : (stop_animation (loopIter s).1).connected = false := rfl
        rw [List.map_cons, List.sum_cons,
          runWithStop_of_not_connected _ _ _ hstop]
        simp [loopIter]
      · rw [if_neg (by omega)]
        have hc : ((loopIter s).1).connected = true := by
          rw [loopIter_connected]; exact hs
        rw [List.map_cons, List.sum_cons, ih (a - 1) _ hc]
        have hdisp : ((loopIter s).2).displayed.length = 1 := rfl
        rw [hdisp]
        omega
  exact hgen stopAt n startedApp hconn

/-! ### Claims C5 and C10 -/

theorem animState_phase_succ (n : ℕ) :
    (animState (n + 1)).phase =
      (animState n).phase + phase_increment + 0.05 * Real.sin ((animState n).phase) :=
  loopIter_phase (animState n)

/-- Claim C5: starting from `phase = 0`, every loop iteration advances the phase
by exactly `phase_increment + 0.05 * sin(phase)`, i.e. the phase sequence obeys
`phase[n+1] = phase[n] + 0.1 + 0.05 * sin(phase[n])` with `phase[0] = 0`; and no
operation resets the phase (`stop_animation` leaves it untouched). -/
theorem claim_C5_phase_recurrence :
    (animState 0).phase = 0 ∧
      (∀ n : ℕ, (animState (n + 1)).phase =
        (animState n).phase + 1 / 10 + 0.05 * Real.sin ((animState n).phase)) ∧
      ∀ s : AppState, (stop_animation s).phase = s.phase := by
  refine ⟨rfl, ?_, fun s => rfl⟩
  intro n
  rw [animState_phase_succ n]
  norm_num [phase_increment]

theorem animState_phase_step_bounds (n : ℕ) :
    (animState n).phase + 1 / 20 ≤ (animState (n + 1)).phase ∧
      (animState (n + 1)).phase ≤ (animState n).phase + 3 / 20 := by
  rw [animState_phase_succ n]
  have h1 := Real.neg_one_le_sin ((animState n).phase)
  have h2 := Real.sin_le_one ((animState n).phase)
  unfold phase_increment
  constructor <;> nlinarith

theorem animState_phase_strictMono : StrictMono (fun n => (animState n).phase) := by
  apply strictMono_nat_of_lt_succ
  intro n
  have h := (animState_phase_step_bounds n).1
  show (animState n).phase < (animState (n + 1)).phase
  linarith

theorem animState_phase_lower (n : ℕ) : (n : ℝ) / 20 ≤ (animState n).phase := by
  induction n with
  | zero =>
    have h0 : (animState 0).phase = 0 := rfl
    rw [h0]
    norm_num
  | succ n ih =>
    have h := (animState_phase_step_bounds n).1
    push_cast
    linarith

/-- Claim C10: the per-iteration phase increment `0.1 + 0.05 * sin(phase)` lies
in `[0.05, 0.15]`, so the phase is strictly increasing and grows without
bound. -/
theorem claim_C10_phase_monotone :
    (∀ n : ℕ, (animState n).phase + 1 / 20 ≤ (animState (n + 1)).phase ∧
      (animState (n + 1)).phase ≤ (animState n).phase + 3 / 20) ∧
      (∀ m n : ℕ, m < n → (animState m).phase < (animState n).phase) ∧
      ∀ M : ℝ, ∃ n : ℕ, M < (animState n).phase := by
  refine ⟨animState_phase_step_bounds, fun m n h => animState_phase_strictMono h, ?_⟩
  intro M
  obtain ⟨n, hn⟩ := exists_nat_gt (20 * M)
  refine ⟨n, lt_of_lt_of_le ?_ (animState_phase_lower n)⟩
  linarith

/-- Witness for claim C10: the phase strictly increases from iteration 0 to 1. -/
theorem claim_C10_witness : (animState 0).phase < (animState 1).phase :=
  claim_C10_phase_monotone.2.1 0 1 (by norm_num)

/-! ### Claim C8 -/

/-- Claim C8: `generate_bitmap` is deterministic and reads no mutable state
besides `self.wave_func`: any two app states that agree on `wave_func` yield
identical bitmaps at every phase (in particular, repeated calls with the same
phase agree), and the call mutates nothing. -/
theorem claim_C8_pure (s1 s2 : AppState) (phase : ℝ) (h : s1.wave_func = s2.wave_func) :
    app_generate_bitmap s1 phase = app_generate_bitmap s2 phase := by
  unfold app_generate_bitmap
  rw [h]

/-- Witness for claim C8: two states differing in phase, connection flag and
stored indicator — but sharing the default sine wave function — render the same
bitmap. -/
theorem claim_C8_witness :
    app_generate_bitmap
        { wave_func := Real.sin, phase := 42, connected := true, prev_brightness := 7 } 0 =
      app_generate_bitmap initApp 0 :=
  claim_C8_pure _ initApp 0 rfl

/-! ### Concrete bitmap evaluation when the wave sample is zero -/

theorem floor_seven_halves : ⌊(7 / 2 : ℝ)⌋ = 3 := by
  rw [Int.floor_eq_iff]
  norm_num

theorem npRound_seven_halves : npRound (7 / 2 : ℝ) = 4 := by
  rw [npRound]
  rw [if_pos (by rw [Int.fract, floor_seven_halves]; norm_num)]
  rw [floor_seven_halves]
  norm_num

/-- When the wave sample at a column's index is `0`, the row written for that
column is `round(interp(0, (-1,1), (0,7))) = round(3.5) = 4` (banker's rounding
of the exact half `3.5` goes up to the even `4`). -/
theorem rowOf_of_waveAt_eq_zero {f : ℝ → ℝ} {phase : ℝ} {c : ℕ}
    (h : waveAt f phase (colIdx c) = 0) : rowOf f phase c = 4 := by
  rw [rowOf, wave_scaled, h, npInterp]
  rw [if_neg (by norm_num), if_neg (by norm_num [bitmap_size])]
  rw [show (0 : ℝ) + (0 - -1) * ((bitmap_size : ℝ) - 1 - 0) / (1 - -1) = 7 / 2 by
    norm_num [bitmap_size]]
  exact npRound_seven_halves

/-- When the wave sample at a column's index is `0`, the brightness written for
that column is `int(interp(0, (0,1), (1,15))) = 1`. -/
theorem valOf_of_waveAt_eq_zero {f : ℝ → ℝ} {phase : ℝ} {c : ℕ}
    (h : waveAt f phase (colIdx c) = 0) : valOf f phase c = 1 := by
  rw [valOf, brightness, h, abs_zero, npInterp]
  rw [if_pos le_rfl, pyInt]
  rw [if_pos (by norm_num)]
  exact Int.floor_one

/-! ### Claim C4 -/

/-- A constant-zero wave function: every bitmap column lands on row 4 with
brightness 1, giving a middle-row indicator of 1. -/
def zeroWave : ℝ → ℝ := fun _ => 0

/-- App state at the top of the first loop iteration when constructed with
`wave_func = zeroWave`: phase 0, previous indicator 0, connected. -/
def zeroApp : AppState :=
  { wave_func := zeroWave, phase := 0, connected := true, prev_brightness := 0 }

theorem waveAt_zeroWave (phase : ℝ) (i : ℕ) : waveAt zeroWave phase i = 0 := by
  rw [waveAt, zeroWave]
  rw [amplitude]
  ring

theorem zeroWave_bitmap_row4 (phase : ℝ) (c : Fin 8) :
    generate_bitmap zeroWave phase 4 c = 1 := by
  rw [generate_bitmap_apply]
  rw [rowOf_of_waveAt_eq_zero (waveAt_zeroWave phase _)]
  rw [if_pos (by decide)]
  exact valOf_of_waveAt_eq_zero (waveAt_zeroWave phase _)

theorem zeroWave_middle_row_max (phase : ℝ) :
    middle_row_max (generate_bitmap zeroWave phase) = 1 := by
  rw [middle_row_max]
  rw [show (List.finRange 8) = [0, 1, 2, 3, 4, 5, 6, 7] from by decide]
  simp only [List.map_cons, List.map_nil, zeroWave_bitmap_row4, List.foldl_cons,
    List.foldl_nil, max_self]

/-- Claim C4 counterexample: in the first iteration from `zeroApp` the
indicator difference is `|0 - 1| = 1 > 0.1`, yet tone synthesis is NOT
triggered — the `play_sound` call (src/main.py line 90) is commented out; only
the stored indicator is updated. -/
theorem claim_C4_counterexample :
    |((zeroApp.prev_brightness : ℤ) : ℝ) -
        ((middle_row_max (generate_bitmap zeroApp.wave_func zeroApp.phase) : ℤ) : ℝ)| > 1 / 10 ∧
      (loopIter zeroApp).2.soundPlayed = false ∧
      (loopIter zeroApp).1.prev_brightness =
        middle_row_max (generate_bitmap zeroApp.wave_func zeroApp.phase) := by
  have hmax : middle_row_max (generate_bitmap zeroApp.wave_func zeroApp.phase) = 1 :=
    zeroWave_middle_row_max 0
  have hgt : |((zeroApp.prev_brightness : ℤ) : ℝ) -
      ((middle_row_max (generate_bitmap zeroApp.wave_func zeroApp.phase) : ℤ) : ℝ)| > 1 / 10 := by
    rw [hmax]
    norm_num [zeroApp]
  refine ⟨hgt, rfl, ?_⟩
  show (loopIter zeroApp).1.prev_brightness = _
  unfold loopIter
  dsimp only
  rw [if_pos hgt]

/-- Claim C4 (amended): in every iteration, the stored previous indicator is
updated to the new middle-row maximum exactly when their absolute difference
exceeds 0.1 and kept otherwise — but tone synthesis is never triggered in
either case, because the `play_sound` call is commented out in the source. -/
theorem claim_C4_amended (s : AppState) :
    (loopIter s).2.soundPlayed = false ∧
      (loopIter s).1.prev_brightness =
        (if |((s.prev_brightness : ℤ) : ℝ) -
            ((middle_row_max (generate_bitmap s.wave_func s.phase) : ℤ) : ℝ)| > 1 / 10
         then middle_row_max (generate_bitmap s.wave_func s.phase)
         else s.prev_brightness) := by
  refine ⟨rfl, ?_⟩
  unfold loopIter
  dsimp only
  split <;> rfl

/-! ### Claims C1 and C9 -/

/-- Claim C1: for every phase, with the default sine wave function and the
fixed configuration (grid 8, internal resolution 32, amplitude 1, brightness
max 15), every entry of `generate_bitmap phase` lies in `[0, 15]` and each
column has at most one nonzero entry. -/
theorem claim_C1_range_one_per_column (phase : ℝ) (r c : Fin 8) :
    (0 ≤ generate_bitmap Real.sin phase r c ∧ generate_bitmap Real.sin phase r c ≤ 15) ∧
      ∀ r' : Fin 8, generate_bitmap Real.sin phase r c ≠ 0 →
        generate_bitmap Real.sin phase r' c ≠ 0 → r = r' := by
  constructor
  · rw [generate_bitmap_apply]
    split
    · have h := valOf_mem Real.sin phase (c : ℕ)
      exact ⟨by linarith [h.1], h.2⟩
    · norm_num
  · intro r' h1 h2
    rw [generate_bitmap_apply] at h1 h2
    have hr : (r : ℤ) = rowOf Real.sin phase (c : ℕ) := by
      by_contra hc
      rw [if_neg hc] at h1
      exact h1 rfl
    have hr' : (r' : ℤ) = rowOf Real.sin phase (c : ℕ) := by
      by_contra hc
      rw [if_neg hc] at h2
      exact h2 rfl
    have hval : (r : ℕ) = (r' : ℕ) := by exact_mod_cast hr.trans hr'.symm
    exact Fin.ext hval

theorem colIdx_zero : colIdx 0 = 0 := by
  have h : pyIntQ (colX 0) = 0 := by
    norm_num [pyIntQ, colX]
  rw [colIdx, h]
  rfl

theorem waveAt_sin_zero : waveAt Real.sin 0 0 = 0 := by
  have harg : 2 * π * (sampleX 0 / (bitmap_size : ℝ)) + 0 = 0 := by
    rw [sampleX]
    norm_num
  rw [waveAt, harg, Real.sin_zero, mul_zero]

theorem sin_bitmap_at_zero_col0 : generate_bitmap Real.sin 0 4 0 = 1 := by
  rw [generate_bitmap_apply]
  have hw : waveAt Real.sin 0 (colIdx ((0 : Fin 8) : ℕ)) = 0 := by
    rw [show ((0 : Fin 8) : ℕ) = 0 from rfl, colIdx_zero]
    exact waveAt_sin_zero
  rw [rowOf_of_waveAt_eq_zero hw]
  rw [if_pos (by decide)]
  exact valOf_of_waveAt_eq_zero hw

/-- Witness for claim C1 at phase 0, column 0: the written cell is row 4 with
value 1 (nonzero), and the uniqueness part applied to it yields `4 = 4`. -/
theorem claim_C1_witness :
    (0 ≤ generate_bitmap Real.sin 0 4 0 ∧ generate_bitmap Real.sin 0 4 0 ≤ 15) ∧
      (4 : Fin 8) = 4 := by
  have hnz : generate_bitmap Real.sin 0 4 0 ≠ 0 := by
    rw [sin_bitmap_at_zero_col0]
    norm_num
  exact ⟨(claim_C1_range_one_per_column 0 4 0).1,
    (claim_C1_range_one_per_column 0 4 0).2 4 hnz hnz⟩

/-- Claim C9: for every phase, with the default sine wave function, every
column of the bitmap has EXACTLY one nonzero entry, and that entry lies in
`[1, 15]` (the brightness rescaling maps `|wave|` from `[0,1]` into `[1,15]`
before integer conversion). -/
theorem claim_C9_exactly_one (phase : ℝ) (c : Fin 8) :
    ∃ r : Fin 8,
      (1 ≤ generate_bitmap Real.sin phase r c ∧ generate_bitmap Real.sin phase r c ≤ 15) ∧
        ∀ r' : Fin 8, r' ≠ r → generate_bitmap Real.sin phase r' c = 0 := by
  obtain ⟨hR0, hR7⟩ := rowOf_mem Real.sin phase (c : ℕ)
  refine ⟨⟨(rowOf Real.sin phase (c : ℕ)).toNat, by omega⟩, ?_, ?_⟩
  · rw [generate_bitmap_apply]
    rw [if_pos (by
      show ((rowOf Real.sin phase (c : ℕ)).toNat : ℤ) = rowOf Real.sin phase (c : ℕ)
      omega)]
    exact valOf_mem Real.sin phase (c : ℕ)
  · intro r' hne
    rw [generate_bitmap_apply]
    rw [if_neg ?_]
    intro hcon
    apply hne
    apply Fin.ext
    show (r' : ℕ) = (rowOf Real.sin phase (c : ℕ)).toNat
    omega

/-- Witness for claim C9 at phase 0, column 0. -/
theorem claim_C9_witness :
    ∃ r : Fin 8,
      (1 ≤ generate_bitmap Real.sin 0 r 0 ∧ generate_bitmap Real.sin 0 r 0 ≤ 15) ∧
        ∀ r' : Fin 8, r' ≠ r → generate_bitmap Real.sin 0 r' 0 = 0 :=
  claim_C9_exactly_one 0 0

/-! ### Claim C3 -/

/-- The column→sample index map as claim C3's sentence words it: the position
obtained by linear interpolation between the column index space `[0, 7]` and
the sample index space `[0, 31]` is ROUNDED to the nearest sample.
(The source instead truncates with `int(col_x)`.) -/
def colIdxSpec (col : ℕ) : ℕ := (round (colX col)).toNat

/-- `generate_bitmap` as claim C3's sentence describes it: for each column, the
entry at (rounded row, column) is the ROUNDED integer brightness of the
rounded-index sample, and all other entries in the column are 0. -/
noncomputable def generate_bitmap_spec (f : ℝ → ℝ) (phase : ℝ) : Fin 8 → Fin 8 → ℤ :=
  fun r c =>
    if (r : ℤ) = npRound (wave_scaled f phase (colIdxSpec (c : ℕ)))
    then round (brightness f phase (colIdxSpec (c : ℕ)))
    else 0

/-- Claim C3's sentence amended to what the source does: the interpolated
sample position and the brightness are TRUNCATED toward zero (`int(...)`),
not rounded; only the row uses `np.round`. -/
noncomputable def generate_bitmap_spec_trunc (f : ℝ → ℝ) (phase : ℝ) : Fin 8 → Fin 8 → ℤ :=
  fun r c =>
    if (r : ℤ) = npRound (wave_scaled f phase ((pyIntQ (colX (c : ℕ))).toNat))
    then pyInt (brightness f phase ((pyIntQ (colX (c : ℕ))).toNat))
    else 0

/-- Claim C3 (amended): for every wave function and phase, `generate_bitmap`
sets, in each column, exactly the entry at (`np.round`ed row, column) to the
TRUNCATED integer brightness of the TRUNCATED interpolated sample index,
leaving the rest of the column 0. -/
theorem claim_C3_amended (f : ℝ → ℝ) (phase : ℝ) :
    generate_bitmap f phase = generate_bitmap_spec_trunc f phase := by
  funext r c
  rw [generate_bitmap_apply]
  rfl

theorem cos_pi_div_sixteen_gt : (49 / 50 : ℝ) < Real.cos (π / 16) := by
  have h1 := @Real.one_sub_sq_div_two_le_cos (π / 16)
  have h2 : π < 3.15 := Real.pi_lt_d2
  have h3 : 0 < π := Real.pi_pos
  nlinarith

theorem cos_pi_div_sixteen_lt_one : Real.cos (π / 16) < 1 := by
  have h := Real.cos_lt_cos_of_nonneg_of_le_pi (le_refl (0 : ℝ))
    (by linarith [Real.pi_pos] : π / 16 ≤ π) (by positivity : (0 : ℝ) < π / 16)
  rw [Real.cos_zero] at h
  exact h

theorem colX_two : colX 2 = 62 / 7 := by
  rw [colX]
  norm_num [internal_resolution, bitmap_size]

theorem colIdx_two : colIdx 2 = 8 := by
  have h : pyIntQ (colX 2) = 8 := by
    rw [pyIntQ, colX_two, if_pos (by norm_num), Int.floor_eq_iff]
    norm_num
  rw [colIdx, h]
  rfl

theorem colIdxSpec_two : colIdxSpec 2 = 9 := by
  have h : round ((62 : ℚ) / 7) = 9 := by
    rw [round_eq, Int.floor_eq_iff]
    norm_num
  rw [colIdxSpec, colX_two, h]
  rfl

theorem waveAt_sin_shift_8 : waveAt Real.sin (-(π / 16)) 8 = Real.cos (π / 16) := by
  have harg : 2 * π * (sampleX 8 / (bitmap_size : ℝ)) + -(π / 16) = π / 2 - π / 16 := by
    have h2 : sampleX 8 = 2 := by
      rw [sampleX]
      norm_num [bitmap_size, internal_resolution]
    rw [h2, show ((bitmap_size : ℕ) : ℝ) = 8 from by norm_num [bitmap_size]]
    ring
  rw [waveAt, harg, Real.sin_pi_div_two_sub, amplitude, one_mul]

theorem waveAt_sin_shift_9 : waveAt Real.sin (-(π / 16)) 9 = 1 := by
  have harg : 2 * π * (sampleX 9 / (bitmap_size : ℝ)) + -(π / 16) = π / 2 := by
    have h2 : sampleX 9 = 9 / 4 := by
      rw [sampleX]
      norm_num [bitmap_size, internal_resolution]
    rw [h2, show ((bitmap_size : ℕ) : ℝ) = 8 from by norm_num [bitmap_size]]
    ring
  rw [waveAt, harg, Real.sin_pi_div_two, amplitude, one_mul]

theorem npRound_intCast (z : ℤ) : npRound ((z : ℝ)) = z := by
  have hfr : ¬(Int.fract ((z : ℝ)) = 1 / 2) := by
    rw [Int.fract_intCast]
    norm_num
  rw [npRound, if_neg hfr]
  exact round_intCast z

theorem npRound_between {x : ℝ} (h1 : (13 / 2 : ℝ) < x) (h2 : x < 7) : npRound x = 7 := by
  have hfl : ⌊x⌋ = 6 := by
    rw [Int.floor_eq_iff]
    constructor
    · push_cast; linarith
    · push_cast; linarith
  have hfr : ¬(Int.fract x = 1 / 2) := by
    rw [Int.fract, hfl]
    push_cast
    intro hcon
    linarith
  rw [npRound, if_neg hfr, round_eq, Int.floor_eq_iff]
  constructor
  · push_cast; linarith
  · push_cast; linarith

theorem rowOf_sin_shift_2 : rowOf Real.sin (-(π / 16)) 2 = 7 := by
  have hlo := cos_pi_div_sixteen_gt
  have hhi := cos_pi_div_sixteen_lt_one
  rw [rowOf, colIdx_two, wave_scaled, waveAt_sin_shift_8,
    show ((bitmap_size : ℕ) : ℝ) = 8 from by norm_num [bitmap_size]]
  rw [npInterp, if_neg (not_le.2 (by linarith)), if_neg (not_le.2 (by linarith))]
  apply npRound_between
  · linarith
  · linarith

theorem valOf_sin_shift_2 : valOf Real.sin (-(π / 16)) 2 = 14 := by
  have hlo := cos_pi_div_sixteen_gt
  have hhi := cos_pi_div_sixteen_lt_one
  have hpos : (0 : ℝ) < Real.cos (π / 16) := by linarith
  rw [valOf, colIdx_two, brightness, waveAt_sin_shift_8, abs_of_pos hpos,
    show ((brightness_factor : ℕ) : ℝ) = 15 from by norm_num [brightness_factor]]
  rw [npInterp, if_neg (not_le.2 hpos), if_neg (not_le.2 hhi)]
  rw [pyInt, if_pos (by nlinarith)]
  rw [Int.floor_eq_iff]
  constructor
  · push_cast; nlinarith
  · push_cast; nlinarith

theorem code_entry_at_shift : generate_bitmap Real.sin (-(π / 16)) 7 2 = 14 := by
  rw [generate_bitmap_apply, show ((2 : Fin 8) : ℕ) = 2 from rfl, rowOf_sin_shift_2,
    if_pos (by decide)]
  exact valOf_sin_shift_2

theorem spec_entry_at_shift : generate_bitmap_spec Real.sin (-(π / 16)) 7 2 = 15 := by
  have hrow : npRound (wave_scaled Real.sin (-(π / 16)) (colIdxSpec 2)) = 7 := by
    rw [colIdxSpec_two, wave_scaled, waveAt_sin_shift_9,
      show ((bitmap_size : ℕ) : ℝ) = 8 from by norm_num [bitmap_size]]
    rw [npInterp, if_neg (by norm_num), if_pos le_rfl,
      show (8 : ℝ) - 1 = ((7 : ℤ) : ℝ) from by norm_num]
    exact npRound_intCast 7
  have hval : round (brightness Real.sin (-(π / 16)) (colIdxSpec 2)) = 15 := by
    rw [brightness, colIdxSpec_two, waveAt_sin_shift_9, abs_one,
      show ((brightness_factor : ℕ) : ℝ) = ((15 : ℤ) : ℝ) from by norm_num [brightness_factor]]
    rw [npInterp, if_neg (by norm_num), if_pos le_rfl]
    exact round_intCast 15
  show (if ((7 : Fin 8) : ℤ) = npRound (wave_scaled Real.sin (-(π / 16))
      (colIdxSpec ((2 : Fin 8) : ℕ)))
    then round (brightness Real.sin (-(π / 16)) (colIdxSpec ((2 : Fin 8) : ℕ)))
    else 0) = 15
  rw [show ((2 : Fin 8) : ℕ) = 2 from rfl, hrow, if_pos (by decide)]
  exact hval

/-- Claim C3 counterexample: at phase `-π/16`, column 2, the source truncates
the interpolated sample position `int(62/7) = 8` and the brightness
`int(1 + 14*cos(π/16)) = 14`, writing 14 at row 7 — while the claim's
round-to-nearest-sample, rounded-brightness rule uses sample 9 (where the sine
is exactly 1) and writes 15 at row 7.  The two bitmaps differ. -/
theorem claim_C3_counterexample :
    generate_bitmap Real.sin (-(π / 16)) 7 2 = 14 ∧
      generate_bitmap_spec Real.sin (-(π / 16)) 7 2 = 15 ∧
      generate_bitmap Real.sin (-(π / 16)) ≠ generate_bitmap_spec Real.sin (-(π / 16)) := by
  refine ⟨code_entry_at_shift, spec_entry_at_shift, ?_⟩
  intro hcon
  have h := congrFun (congrFun hcon 7) 2
  rw [code_entry_at_shift, spec_entry_at_shift] at h
  exact absurd h (by norm_num)

end SinusMonome
